import Mathlib

/-!
Verification of the generic keyed in-memory store of the go-api repository
(src/storage/store.go), together with the two concrete record shapes the
program instantiates it at (models.Item and models.Client).

Modelling conventions for the shallow embedding:

* A Go map with string keys, map[string]T, is modelled as an association
  list (GoMap T) whose keys are unique in every reachable state; lookup,
  insert-or-replace and delete mirror Go map indexing, assignment and the
  built-in delete.
* time.Now() is modelled by passing the value each call returns as an
  explicit Nat argument; a call site that invokes time.Now() twice (as
  MemoryStore.Create does, once for CreatedAt and once for UpdatedAt)
  receives two arguments.  Monotonicity of the wall clock becomes an
  explicit hypothesis where a claim needs it.
* uuid.New().String() is modelled by passing the generated string as an
  explicit argument; the spec treats the generator as producing unique,
  non-empty canonical strings with collision probability zero, so those
  facts become hypotheses on the supplied strings.
* The Go type switch in Create and Update, which matches the pointer to
  the generic payload against the pointer types of the enumerated model
  shapes and falls through silently when no case matches, is modelled by
  an Option (ModelOps T) argument: some ops when a case matches (with ops
  holding the field accesses that case performs), none when none does.
* A Go (T, bool) comma-ok result whose T is the zero value on failure is
  modelled as Option T.
* The readers-writer lock only serialises the operations; each operation
  is a sequential function of the state here, matching the linearizable
  behaviour the lock produces.
-/

set_option autoImplicit false

namespace GoApi

universe u

/-- Modelled from the spec: models.Item, the record shape of the items
resource.  The identity fields ID, CreatedAt, UpdatedAt are the ones
store.go reads and writes; the domain fields Name and Description are the
ones the repository documentation and test script exercise.  Timestamps
are Nats (instants of a monotone clock). -/
structure Item where
  ID : String
  Name : String
  Description : String
  CreatedAt : Nat
  UpdatedAt : Nat
deriving DecidableEq, Repr

/-- Modelled from the spec: models.Client, the record shape of the clients
resource, with domain fields Name, Email and Phone. -/
structure Client where
  ID : String
  Name : String
  Email : String
  Phone : String
  CreatedAt : Nat
  UpdatedAt : Nat
deriving DecidableEq, Repr

/-- The field accesses one arm of the type switch in store.go performs on
its model shape: read the ID field, read the two timestamp fields, and
overwrite the three identity fields (ID, CreatedAt, UpdatedAt) leaving
every other field unchanged. -/
structure ModelOps (T : Type u) where
  getID : T → String
  getCreatedAt : T → Nat
  getUpdatedAt : T → Nat
  withIdentity : T → String → Nat → Nat → T

/-- The switch arm for case models.Item: the three assignments to v.ID,
v.CreatedAt, v.UpdatedAt leave Name and Description untouched. -/
def Item.withIdentity (x : Item) (id : String) (c util : Nat) : Item :=
  ⟨id, x.Name, x.Description, c, util⟩

/-- The switch arm for case models.Client. -/
def Client.withIdentity (x : Client) (id : String) (c util : Nat) : Client :=
  ⟨id, x.Name, x.Email, x.Phone, c, util⟩

def itemOps : ModelOps Item :=
  ⟨Item.ID, Item.CreatedAt, Item.UpdatedAt, Item.withIdentity⟩

def clientOps : ModelOps Client :=
  ⟨Client.ID, Client.CreatedAt, Client.UpdatedAt, Client.withIdentity⟩

/-- Go map[string]T, as the association list of its bindings. -/
abbrev GoMap (T : Type u) : Type u := List (String × T)

namespace GoMap

variable {T : Type u}

/-- Map indexing m[k] with the comma-ok bool folded into Option. -/
def lookup : GoMap T → String → Option T
  | [], _ => none
  | (k, v) :: rest, id => if k = id then some v else lookup rest id

/-- Map assignment m[k] = v: replaces the binding of k when present,
otherwise adds one. -/
def insert : GoMap T → String → T → GoMap T
  | [], id, v => [(id, v)]
  | (k, w) :: rest, id, v =>
      if k = id then (id, v) :: rest else (k, w) :: insert rest id v

/-- The built-in delete(m, k): removes the binding of k.  A Go map holds
at most one binding per key, so removing every binding of k coincides
with removing the one binding. -/
def erase (m : GoMap T) (id : String) : GoMap T :=
  m.filter (fun p => p.1 ≠ id)

/-- The key set, as a list. -/
def keys (m : GoMap T) : List String := m.map Prod.fst

end GoMap

/-- MemoryStore implements Store with in-memory storage: it owns one map
from identifier to record.  The RWMutex serialises the operations and has
no further sequential content. -/
structure MemoryStore (T : Type u) where
  items : GoMap T

/-- NewMemoryStore: the fresh store with an empty map. -/
def NewMemoryStore (T : Type u) : MemoryStore T := ⟨[]⟩

namespace MemoryStore

variable {T : Type u}

/-- GetAll returns all items (iteration order of a Go map is unspecified;
the binding order of the association list is one admissible order, and no
claim depends on it). -/
def GetAll (s : MemoryStore T) : List T :=
  s.items.map Prod.snd

/-- GetByID retrieves an item by ID; (T, bool) becomes Option T. -/
def GetByID (s : MemoryStore T) (id : String) : Option T :=
  GoMap.lookup s.items id

/-- Create adds a new item.  newID is the string uuid.New().String()
returned; t1 and t2 are the results of the two successive time.Now()
calls (CreatedAt := t1, UpdatedAt := t2).  ops is the matching arm of the
type switch, none when no case matches (then nothing at all happens and
data is returned unchanged). -/
def Create (ops : Option (ModelOps T)) (s : MemoryStore T) (data : T)
    (newID : String) (t1 t2 : Nat) : T × MemoryStore T :=
  match ops with
  | none => (data, s)
  | some o =>
      let d := o.withIdentity data newID t1 t2
      (d, ⟨GoMap.insert s.items (o.getID d) d⟩)

/-- Update modifies an existing item: if id is absent it returns the zero
value and false (here: none) without mutation; otherwise the matching
switch arm copies the stored record's CreatedAt and the id onto data,
stamps UpdatedAt with the time.Now() result t, stores the result under id
and returns it. -/
def Update (ops : Option (ModelOps T)) (s : MemoryStore T) (id : String)
    (data : T) (t : Nat) : Option T × MemoryStore T :=
  match GoMap.lookup s.items id with
  | none => (none, s)
  | some old =>
      match ops with
      | none => (some data, s)
      | some o =>
          let d := o.withIdentity data id (o.getCreatedAt old) t
          (some d, ⟨GoMap.insert s.items id d⟩)

/-- Delete removes an item: false without mutation when id is absent,
otherwise delete(m, id) and true. -/
def Delete (s : MemoryStore T) (id : String) : Bool × MemoryStore T :=
  match GoMap.lookup s.items id with
  | none => (false, s)
  | some _ => (true, ⟨GoMap.erase s.items id⟩)

end MemoryStore

/-- A sequence of Create calls against one store: each entry carries the
caller-supplied payload together with the uuid string and the two clock
reads that call consumes.  Returns the records the calls returned, in
order, together with the final store. -/
def createMany {T : Type u} (o : ModelOps T) (s : MemoryStore T) :
    List (T × String × Nat × Nat) → List T × MemoryStore T
  | [] => ([], s)
  | (d, i, t1, t2) :: rest =>
      let r := MemoryStore.Create (some o) s d i t1 t2
      let q := createMany o r.2 rest
      (r.1 :: q.1, q.2)

/-- One client call to a mutating store operation, carrying the external
inputs (uuid string, clock reads) that call consumes. -/
inductive Op (T : Type u) where
  | createOp (data : T) (newID : String) (t1 t2 : Nat)
  | updateOp (id : String) (data : T) (t : Nat)
  | deleteOp (id : String)

/-- The state change of one call, for a shape the type switch matches. -/
def applyOp {T : Type u} (o : ModelOps T) (s : MemoryStore T) : Op T → MemoryStore T
  | .createOp d i t1 t2 => (MemoryStore.Create (some o) s d i t1 t2).2
  | .updateOp id d t => (MemoryStore.Update (some o) s id d t).2
  | .deleteOp id => (MemoryStore.Delete s id).2

/-- The store state after a sequence of calls. -/
def runTrace {T : Type u} (o : ModelOps T) (s : MemoryStore T) : List (Op T) → MemoryStore T
  | [] => s
  | op :: rest => runTrace o (applyOp o s op) rest

/-- Well-formed external inputs for one call: the uuid generator never
returns the empty string (a canonical uuid string has 36 characters). -/
def opWF {T : Type u} : Op T → Prop
  | .createOp _ i _ _ => i ≠ ""
  | .updateOp _ _ _ => True
  | .deleteOp _ => True

instance opWFDec {T : Type u} : DecidablePred (@opWF T) := fun op =>
  match op with
  | .createOp _ i _ _ => inferInstanceAs (Decidable (i ≠ ""))
  | .updateOp _ _ _ => inferInstanceAs (Decidable True)
  | .deleteOp _ => inferInstanceAs (Decidable True)

/-- Key-field agreement: every binding of the store's map carries a record
whose ID field is the binding's key. -/
def keyFieldAgree {T : Type u} (gid : T → String) (s : MemoryStore T) : Prop :=
  ∀ p ∈ s.items, gid p.2 = p.1

/-- The identifier invariants of a store state: no two bindings share a
key, and every binding's record agrees with the binding's key, which is
non-empty. -/
def StoreInv {T : Type u} (gid : T → String) (s : MemoryStore T) : Prop :=
  (GoMap.keys s.items).Nodup ∧ ∀ p ∈ s.items, gid p.2 = p.1 ∧ p.1 ≠ ""

/-- A sample stored item (its store holds it under its own ID), used to
instantiate theorems at concrete states. -/
def sampleItem : Item := ⟨"a", "Laptop", "16-inch", 0, 0⟩

def sampleItemStore : MemoryStore Item := ⟨[("a", sampleItem)]⟩

/-- A sample raw payload, with caller-supplied identity fields that the
store must discard. -/
def rawItem : Item := ⟨"zz", "Laptop Pro", "32GB", 9, 9⟩

def sampleClient : Client := ⟨"c", "Alice", "alice@example.com", "555-0101", 0, 0⟩

def sampleClientStore : MemoryStore Client := ⟨[("c", sampleClient)]⟩

def rawClient : Client := ⟨"q", "Bob", "bob@example.com", "555-0202", 3, 3⟩

/-- A sample trace of mutating calls with well-formed external inputs. -/
def sampleTrace : List (Op Item) :=
  [Op.createOp rawItem "u1" 0 1, Op.updateOp "u1" rawItem 2, Op.deleteOp "u1"]

/-- A sample pair of Create calls: payloads with caller-supplied identity
fields, distinct non-empty generated identifiers, increasing clock. -/
def sampleInputs : List (Item × String × Nat × Nat) :=
  [(rawItem, "u1", 1, 2), (rawItem, "u2", 3, 4)]

namespace GoMap

variable {T : Type u}

@[simp] theorem lookup_nil (id : String) : lookup ([] : GoMap T) id = none := rfl

@[simp] theorem lookup_cons (k : String) (v : T) (rest : GoMap T) (id : String) :
    lookup ((k, v) :: rest) id = if k = id then some v else lookup rest id := rfl

@[simp] theorem keys_nil : keys ([] : GoMap T) = [] := rfl

@[simp] theorem keys_cons (k : String) (v : T) (rest : GoMap T) :
    keys ((k, v) :: rest) = k :: keys rest := rfl

theorem erase_cons (k : String) (w : T) (rest : GoMap T) (id : String) :
    erase ((k, w) :: rest) id =
      if k = id then erase rest id else (k, w) :: erase rest id := by
  by_cases hk : k = id
  · simp [erase, hk]
  · simp [erase, hk]

theorem lookup_insert_self (m : GoMap T) (id : String) (v : T) :
    lookup (insert m id v) id = some v := by
  induction m with
  | nil => simp [insert]
  | cons p rest ih =>
      obtain ⟨k, w⟩ := p
      by_cases hk : k = id
      · simp [insert, hk]
      · simp [insert, hk, ih]

theorem lookup_insert_ne (m : GoMap T) (id j : String) (v : T) (h : j ≠ id) :
    lookup (insert m id v) j = lookup m j := by
  have hij : id ≠ j := Ne.symm h
  induction m with
  | nil => simp [insert, hij]
  | cons p rest ih =>
      obtain ⟨k, w⟩ := p
      by_cases hk : k = id
      · subst hk
        simp [insert, hij]
      · simp only [insert, if_neg hk, lookup_cons]
        by_cases hkj : k = j
        · simp [hkj]
        · simp [hkj, ih]

theorem mem_insert {m : GoMap T} {id : String} {v : T} {p : String × T}
    (h : p ∈ insert m id v) : p = (id, v) ∨ p ∈ m := by
  induction m with
  | nil => simpa [insert] using h
  | cons q rest ih =>
      obtain ⟨k, w⟩ := q
      by_cases hk : k = id
      · simp only [insert, if_pos hk, List.mem_cons] at h
        rcases h with h | h
        · exact Or.inl h
        · exact Or.inr (List.mem_cons_of_mem _ h)
      · simp only [insert, if_neg hk, List.mem_cons] at h
        rcases h with h | h
        · exact Or.inr (by simp [h])
        · rcases ih h with h' | h'
          · exact Or.inl h'
          · exact Or.inr (List.mem_cons_of_mem _ h')

theorem mem_keys_insert {m : GoMap T} {id : String} {v : T} {j : String}
    (h : j ∈ keys (insert m id v)) : j ∈ keys m ∨ j = id := by
  simp only [keys, List.mem_map] at h ⊢
  obtain ⟨p, hp, hpj⟩ := h
  rcases mem_insert hp with h' | h'
  · right
    rw [h'] at hpj
    exact hpj.symm
  · left
    exact ⟨p, h', hpj⟩

theorem keys_insert_nodup {m : GoMap T} (hm : (keys m).Nodup)
    (id : String) (v : T) : (keys (insert m id v)).Nodup := by
  induction m with
  | nil => simp [insert, keys]
  | cons p rest ih =>
      obtain ⟨k, w⟩ := p
      rw [keys_cons, List.nodup_cons] at hm
      obtain ⟨hknot, hrest⟩ := hm
      by_cases hk : k = id
      · subst hk
        rw [show insert ((k, w) :: rest) k v = (k, v) :: rest from by simp [insert]]
        rw [keys_cons, List.nodup_cons]
        exact ⟨hknot, hrest⟩
      · have ih' := ih hrest
        simp only [insert, if_neg hk, keys_cons, List.nodup_cons]
        refine ⟨?_, ih'⟩
        intro hmem
        rcases mem_keys_insert hmem with h' | h'
        · exact hknot h'
        · exact hk h'

theorem lookup_erase_self (m : GoMap T) (id : String) :
    lookup (erase m id) id = none := by
  induction m with
  | nil => rfl
  | cons p rest ih =>
      obtain ⟨k, w⟩ := p
      rw [erase_cons]
      by_cases hk : k = id
      · simpa [hk] using ih
      · simp [hk, ih]

theorem lookup_erase_ne (m : GoMap T) (id j : String) (h : j ≠ id) :
    lookup (erase m id) j = lookup m j := by
  induction m with
  | nil => rfl
  | cons p rest ih =>
      obtain ⟨k, w⟩ := p
      rw [erase_cons]
      by_cases hk : k = id
      · subst hk
        have hkj : k ≠ j := Ne.symm h
        rw [if_pos rfl, ih, lookup_cons, if_neg hkj]
      · rw [if_neg hk, lookup_cons, lookup_cons]
        by_cases hkj : k = j
        · rw [if_pos hkj, if_pos hkj]
        · rw [if_neg hkj, if_neg hkj, ih]

theorem mem_erase {m : GoMap T} {id : String} {p : String × T}
    (h : p ∈ erase m id) : p ∈ m :=
  List.mem_of_mem_filter h

theorem mem_erase_key_ne {m : GoMap T} {id : String} {p : String × T}
    (h : p ∈ erase m id) : p.1 ≠ id := by
  have := List.of_mem_filter h
  simpa using this

theorem keys_erase_nodup {m : GoMap T} (hm : (keys m).Nodup) (id : String) :
    (keys (erase m id)).Nodup := by
  have hsub : (erase m id).Sublist m := List.filter_sublist m
  exact List.Nodup.sublist (hsub.map Prod.fst) hm

theorem lookup_mem {m : GoMap T} {id : String} {v : T}
    (h : lookup m id = some v) : (id, v) ∈ m := by
  induction m with
  | nil => simp [lookup] at h
  | cons p rest ih =>
      obtain ⟨k, w⟩ := p
      by_cases hk : k = id
      · subst hk
        simp at h
        subst h
        exact List.mem_cons_self _ _
      · simp only [lookup_cons, if_neg hk] at h
        exact List.mem_cons_of_mem _ (ih h)

end GoMap

theorem createMany_fst {T : Type u} (o : ModelOps T)
    (inputs : List (T × String × Nat × Nat)) (s : MemoryStore T) :
    (createMany o s inputs).1 =
      inputs.map (fun q => o.withIdentity q.1 q.2.1 q.2.2.1 q.2.2.2) := by
  induction inputs generalizing s with
  | nil => rfl
  | cons q rest ih =>
      obtain ⟨d, i, t1, t2⟩ := q
      simp [createMany, MemoryStore.Create, ih]

theorem StoreInv_empty {T : Type u} (gid : T → String) :
    StoreInv gid (NewMemoryStore T) := by
  constructor
  · simp [NewMemoryStore, GoMap.keys]
  · intro p hp
    exact absurd hp (List.not_mem_nil p)

theorem applyOp_StoreInv {T : Type u} (o : ModelOps T)
    (hID : ∀ x i c util, o.getID (o.withIdentity x i c util) = i)
    {s : MemoryStore T} (op : Op T) (hs : StoreInv o.getID s) (hop : opWF op) :
    StoreInv o.getID (applyOp o s op) := by
  obtain ⟨h1, h2⟩ := hs
  cases op with
  | createOp d i t1 t2 =>
      simp only [applyOp, MemoryStore.Create]
      constructor
      · exact GoMap.keys_insert_nodup h1 _ _
      · intro p hp
        rcases GoMap.mem_insert hp with h | h
        · rw [h]
          refine ⟨rfl, ?_⟩
          rw [hID]
          exact hop
        · exact h2 p h
  | updateOp id d t =>
      cases hl : GoMap.lookup s.items id with
      | none =>
          simp only [applyOp, MemoryStore.Update, hl]
          exact ⟨h1, h2⟩
      | some old =>
          have hid : id ≠ "" := (h2 _ (GoMap.lookup_mem hl)).2
          simp only [applyOp, MemoryStore.Update, hl]
          constructor
          · exact GoMap.keys_insert_nodup h1 _ _
          · intro p hp
            rcases GoMap.mem_insert hp with h | h
            · rw [h]
              exact ⟨hID d id (o.getCreatedAt old) t, hid⟩
            · exact h2 p h
  | deleteOp id =>
      cases hl : GoMap.lookup s.items id with
      | none =>
          simp only [applyOp, MemoryStore.Delete, hl]
          exact ⟨h1, h2⟩
      | some old =>
          simp only [applyOp, MemoryStore.Delete, hl]
          exact ⟨GoMap.keys_erase_nodup h1 id, fun p hp => h2 p (GoMap.mem_erase hp)⟩

theorem runTrace_StoreInv {T : Type u} (o : ModelOps T)
    (hID : ∀ x i c util, o.getID (o.withIdentity x i c util) = i)
    (trace : List (Op T)) :
    ∀ s : MemoryStore T, StoreInv o.getID s → (∀ op ∈ trace, opWF op) →
      StoreInv o.getID (runTrace o s trace) := by
  induction trace with
  | nil => exact fun s hs _ => hs
  | cons op rest ih =>
      intro s hs hwf
      exact ih _ (applyOp_StoreInv o hID op hs (hwf op (List.mem_cons_self _ _)))
        (fun q hq => hwf q (List.mem_cons_of_mem _ hq))

theorem keyFieldAgree_insert {T : Type u} {gid : T → String} {m : GoMap T}
    (h : ∀ p ∈ m, gid p.2 = p.1) {k : String} {v : T} (hv : gid v = k) :
    ∀ p ∈ GoMap.insert m k v, gid p.2 = p.1 := by
  intro p hp
  rcases GoMap.mem_insert hp with h' | h'
  · rw [h']
    exact hv
  · exact h p h'

theorem create_keyFieldAgree {T : Type u} (o : ModelOps T)
    (s : MemoryStore T) (d : T) (i : String) (t1 t2 : Nat)
    (h : keyFieldAgree o.getID s) :
    keyFieldAgree o.getID (MemoryStore.Create (some o) s d i t1 t2).2 := by
  simp only [MemoryStore.Create, keyFieldAgree] at h ⊢
  exact keyFieldAgree_insert h rfl

theorem update_keyFieldAgree {T : Type u} (o : ModelOps T)
    (hID : ∀ x i c util, o.getID (o.withIdentity x i c util) = i)
    (s : MemoryStore T) (id : String) (d : T) (t : Nat)
    (h : keyFieldAgree o.getID s) :
    keyFieldAgree o.getID (MemoryStore.Update (some o) s id d t).2 := by
  cases hl : GoMap.lookup s.items id with
  | none => simpa only [MemoryStore.Update, hl] using h
  | some old =>
      simp only [MemoryStore.Update, hl, keyFieldAgree] at h ⊢
      exact keyFieldAgree_insert h (hID d id (o.getCreatedAt old) t)

theorem delete_keyFieldAgree {T : Type u} (gid : T → String)
    (s : MemoryStore T) (id : String) (h : keyFieldAgree gid s) :
    keyFieldAgree gid (MemoryStore.Delete s id).2 := by
  cases hl : GoMap.lookup s.items id with
  | none => simpa only [MemoryStore.Delete, hl] using h
  | some old =>
      simp only [MemoryStore.Delete, hl, keyFieldAgree] at h ⊢
      exact fun p hp => h p (GoMap.mem_erase hp)

/-- C9: for a type parameter the type switch of Create does not enumerate
(no case matches, modelled by the ops argument none), Create returns its
argument unchanged, assigns no identifier or timestamps, and inserts
nothing: the store afterwards is the store before. -/
theorem create_unmatched_shape_noop {T : Type u} (s : MemoryStore T)
    (data : T) (newID : String) (t1 t2 : Nat) :
    MemoryStore.Create none s data newID t1 t2 = (data, s) := rfl

/-- C3: for both record shapes the program instantiates, Create followed
by GetByID on the identifier of the returned record reports found and
yields exactly the record Create returned. -/
theorem create_then_getByID_roundtrip :
    (∀ (s : MemoryStore Item) (raw : Item) (newID : String) (t1 t2 : Nat),
        MemoryStore.GetByID (MemoryStore.Create (some itemOps) s raw newID t1 t2).2
            ((MemoryStore.Create (some itemOps) s raw newID t1 t2).1).ID =
          some (MemoryStore.Create (some itemOps) s raw newID t1 t2).1) ∧
    (∀ (s : MemoryStore Client) (raw : Client) (newID : String) (t1 t2 : Nat),
        MemoryStore.GetByID (MemoryStore.Create (some clientOps) s raw newID t1 t2).2
            ((MemoryStore.Create (some clientOps) s raw newID t1 t2).1).ID =
          some (MemoryStore.Create (some clientOps) s raw newID t1 t2).1) := by
  constructor <;>
    · intro s raw newID t1 t2
      simp [MemoryStore.Create, MemoryStore.GetByID, itemOps, clientOps,
        GoMap.lookup_insert_self]

/-- C5: on an identifier absent from the store, Update reports NotFound
and Delete returns false, and both return the store with its map exactly
as before (same size, same keys, same records): each is a complete no-op.
This holds for every shape and every outcome of the type switch. -/
theorem absent_id_mutations_are_noops {T : Type u} (ops : Option (ModelOps T))
    (s : MemoryStore T) (id : String) (data : T) (t : Nat)
    (habsent : GoMap.lookup s.items id = none) :
    MemoryStore.Update ops s id data t = (none, s) ∧
    MemoryStore.Delete s id = (false, s) :=
  ⟨by simp [MemoryStore.Update, habsent], by simp [MemoryStore.Delete, habsent]⟩

/-- C5 witness: a concrete store holding one item, probed at an absent
identifier. -/
theorem absent_id_mutations_are_noops_witness :
    MemoryStore.Update (some itemOps) sampleItemStore "b" rawItem 5 =
      (none, sampleItemStore) ∧
    MemoryStore.Delete sampleItemStore "b" = (false, sampleItemStore) :=
  absent_id_mutations_are_noops (some itemOps) sampleItemStore "b" rawItem 5
    (by decide)

/-- C7 (counterexample): Create reads the clock once for CreatedAt and
again, separately, for UpdatedAt; when the two reads differ (0, then 1)
the returned record's creation and modification timestamps differ,
refuting created_at = updated_at as stated. -/
theorem create_equal_timestamps_counterexample :
    ¬ ((MemoryStore.Create (some itemOps) (NewMemoryStore Item)
          ⟨"", "Laptop", "", 0, 0⟩ "a" 0 1).1.CreatedAt =
        (MemoryStore.Create (some itemOps) (NewMemoryStore Item)
          ⟨"", "Laptop", "", 0, 0⟩ "a" 0 1).1.UpdatedAt) := by decide

/-- C7 (amended): the item record Create returns carries the supplied
non-empty generated identifier, and its CreatedAt is at most its
UpdatedAt whenever the clock does not go backwards between the two reads,
with equality exactly when the two reads coincide. -/
theorem create_timestamps_ordered (s : MemoryStore Item) (raw : Item)
    (newID : String) (t1 t2 : Nat) (hne : newID ≠ "") (hmono : t1 ≤ t2) :
    (MemoryStore.Create (some itemOps) s raw newID t1 t2).1.ID ≠ "" ∧
    (MemoryStore.Create (some itemOps) s raw newID t1 t2).1.CreatedAt ≤
      (MemoryStore.Create (some itemOps) s raw newID t1 t2).1.UpdatedAt ∧
    (t1 = t2 →
      (MemoryStore.Create (some itemOps) s raw newID t1 t2).1.CreatedAt =
        (MemoryStore.Create (some itemOps) s raw newID t1 t2).1.UpdatedAt) :=
  ⟨hne, hmono, fun h => h⟩

/-- C7 witness: a concrete creation with clock reads 3 then 4. -/
theorem create_timestamps_ordered_witness :
    (MemoryStore.Create (some itemOps) (NewMemoryStore Item) rawItem "u" 3 4).1.ID ≠ "" ∧
    (MemoryStore.Create (some itemOps) (NewMemoryStore Item) rawItem "u" 3 4).1.CreatedAt ≤
      (MemoryStore.Create (some itemOps) (NewMemoryStore Item) rawItem "u" 3 4).1.UpdatedAt ∧
    (3 = 4 →
      (MemoryStore.Create (some itemOps) (NewMemoryStore Item) rawItem "u" 3 4).1.CreatedAt =
        (MemoryStore.Create (some itemOps) (NewMemoryStore Item) rawItem "u" 3 4).1.UpdatedAt) :=
  create_timestamps_ordered (NewMemoryStore Item) rawItem "u" 3 4 (by decide)
    (by decide)

/-- C1: Update on a present identifier returns a record that keeps the
identifier and the previously stored record's creation timestamp, whose
modification timestamp is at least the prior one (the clock read is at
least the stored UpdatedAt, as it is in every reachable state), and whose
every other field is the corresponding field of the raw argument — a full
replacement, for both record shapes the program instantiates. -/
theorem update_full_replacement_semantics :
    (∀ (s : MemoryStore Item) (id : String) (old raw : Item) (t : Nat),
        GoMap.lookup s.items id = some old → old.UpdatedAt ≤ t →
        ∃ r : Item, (MemoryStore.Update (some itemOps) s id raw t).1 = some r ∧
          r.ID = id ∧ r.CreatedAt = old.CreatedAt ∧ old.UpdatedAt ≤ r.UpdatedAt ∧
          r.Name = raw.Name ∧ r.Description = raw.Description) ∧
    (∀ (s : MemoryStore Client) (id : String) (old raw : Client) (t : Nat),
        GoMap.lookup s.items id = some old → old.UpdatedAt ≤ t →
        ∃ r : Client, (MemoryStore.Update (some clientOps) s id raw t).1 = some r ∧
          r.ID = id ∧ r.CreatedAt = old.CreatedAt ∧ old.UpdatedAt ≤ r.UpdatedAt ∧
          r.Name = raw.Name ∧ r.Email = raw.Email ∧ r.Phone = raw.Phone) := by
  constructor
  · intro s id old raw t hfound hle
    refine ⟨itemOps.withIdentity raw id (itemOps.getCreatedAt old) t, ?_,
      rfl, rfl, hle, rfl, rfl⟩
    simp [MemoryStore.Update, hfound]
  · intro s id old raw t hfound hle
    refine ⟨clientOps.withIdentity raw id (clientOps.getCreatedAt old) t, ?_,
      rfl, rfl, hle, rfl, rfl, rfl⟩
    simp [MemoryStore.Update, hfound]

/-- C1 witness: a concrete update of a stored item by a raw payload whose
identity fields differ from the stored ones. -/
theorem update_full_replacement_semantics_witness :
    ∃ r : Item, (MemoryStore.Update (some itemOps) sampleItemStore "a" rawItem 5).1 = some r ∧
      r.ID = "a" ∧ r.CreatedAt = sampleItem.CreatedAt ∧
      sampleItem.UpdatedAt ≤ r.UpdatedAt ∧
      r.Name = rawItem.Name ∧ r.Description = rawItem.Description :=
  update_full_replacement_semantics.1 sampleItemStore "a" sampleItem rawItem 5
    (by decide) (by decide)

/-- C2: along any sequence of Create calls on a fresh store of a shape
whose switch arm obeys the accessor laws (both instantiated shapes do,
definitionally), the identifiers of the returned records are exactly the
supplied generator outputs — all non-empty and pairwise distinct whenever
the generator outputs are, which the spec stipulates of the uuid
generator — and each returned record's identifier and both timestamps
come from the generator and the clock, never from the caller's payload. -/
theorem create_sequence_unique_nonempty_ids {T : Type u} (o : ModelOps T)
    (hID : ∀ x i c util, o.getID (o.withIdentity x i c util) = i)
    (hCr : ∀ x i c util, o.getCreatedAt (o.withIdentity x i c util) = c)
    (hUp : ∀ x i c util, o.getUpdatedAt (o.withIdentity x i c util) = util)
    (inputs : List (T × String × Nat × Nat))
    (hnodup : (inputs.map (fun q => q.2.1)).Nodup)
    (hne : ∀ q ∈ inputs, q.2.1 ≠ "") :
    List.map o.getID (createMany o (NewMemoryStore T) inputs).1 =
        inputs.map (fun q => q.2.1) ∧
    (List.map o.getID (createMany o (NewMemoryStore T) inputs).1).Nodup ∧
    (∀ r ∈ (createMany o (NewMemoryStore T) inputs).1, o.getID r ≠ "") ∧
    List.Forall₂
      (fun r q => o.getID r = q.2.1 ∧ o.getCreatedAt r = q.2.2.1 ∧
        o.getUpdatedAt r = q.2.2.2)
      (createMany o (NewMemoryStore T) inputs).1 inputs := by
  have hfst := createMany_fst o inputs (NewMemoryStore T)
  have hmap : List.map o.getID (createMany o (NewMemoryStore T) inputs).1 =
      inputs.map (fun q => q.2.1) := by
    rw [hfst, List.map_map]
    exact List.map_congr_left (fun q hq => hID q.1 q.2.1 q.2.2.1 q.2.2.2)
  refine ⟨hmap, ?_, ?_, ?_⟩
  · rw [hmap]
    exact hnodup
  · intro r hr
    rw [hfst] at hr
    obtain ⟨q, hq, hqr⟩ := List.mem_map.mp hr
    rw [← hqr, hID]
    exact hne q hq
  · rw [hfst, List.forall₂_map_left_iff]
    refine List.forall₂_same.mpr ?_
    intro q hq
    exact ⟨hID q.1 q.2.1 q.2.2.1 q.2.2.2, hCr q.1 q.2.1 q.2.2.1 q.2.2.2,
      hUp q.1 q.2.1 q.2.2.1 q.2.2.2⟩

/-- C2 witness: two concrete Create calls on a fresh item store. -/
theorem create_sequence_unique_nonempty_ids_witness :
    List.map itemOps.getID (createMany itemOps (NewMemoryStore Item) sampleInputs).1 =
        sampleInputs.map (fun q => q.2.1) ∧
    (List.map itemOps.getID (createMany itemOps (NewMemoryStore Item) sampleInputs).1).Nodup ∧
    (∀ r ∈ (createMany itemOps (NewMemoryStore Item) sampleInputs).1,
        itemOps.getID r ≠ "") ∧
    List.Forall₂
      (fun r q => itemOps.getID r = q.2.1 ∧ itemOps.getCreatedAt r = q.2.2.1 ∧
        itemOps.getUpdatedAt r = q.2.2.2)
      (createMany itemOps (NewMemoryStore Item) sampleInputs).1 sampleInputs :=
  create_sequence_unique_nonempty_ids itemOps (fun _ _ _ _ => rfl)
    (fun _ _ _ _ => rfl) (fun _ _ _ _ => rfl) sampleInputs (by decide) (by decide)

/-- C4: Update on a present identifier reports found, stores the record
it returns under that identifier, and a subsequent GetByID yields exactly
that record, for every shape the type switch matches. -/
theorem update_found_stores_returned_record {T : Type u} (o : ModelOps T)
    (s : MemoryStore T) (id : String) (data : T) (t : Nat)
    (hfound : GoMap.lookup s.items id ≠ none) :
    (MemoryStore.Update (some o) s id data t).1.isSome = true ∧
    MemoryStore.GetByID (MemoryStore.Update (some o) s id data t).2 id =
      (MemoryStore.Update (some o) s id data t).1 := by
  cases hl : GoMap.lookup s.items id with
  | none => exact absurd hl hfound
  | some old =>
      constructor
      · simp [MemoryStore.Update, hl]
      · simp [MemoryStore.Update, MemoryStore.GetByID, hl,
          GoMap.lookup_insert_self]

/-- C4 witness: a concrete update of a stored client. -/
theorem update_found_stores_returned_record_witness :
    (MemoryStore.Update (some clientOps) sampleClientStore "c" rawClient 7).1.isSome = true ∧
    MemoryStore.GetByID
        (MemoryStore.Update (some clientOps) sampleClientStore "c" rawClient 7).2 "c" =
      (MemoryStore.Update (some clientOps) sampleClientStore "c" rawClient 7).1 :=
  update_found_stores_returned_record clientOps sampleClientStore "c" rawClient 7
    (by decide)

/-- C6: deleting a present identifier returns true; afterwards GetByID on
that identifier reports NotFound, GetAll holds no record whose identifier
field is that identifier (the key-field agreement of reachable states is
a hypothesis), and the record under every other identifier is exactly as
before. -/
theorem delete_removes_exactly_that_id {T : Type u} (gid : T → String)
    (s : MemoryStore T) (id : String) (old : T)
    (hagree : keyFieldAgree gid s)
    (hfound : GoMap.lookup s.items id = some old) :
    (MemoryStore.Delete s id).1 = true ∧
    MemoryStore.GetByID (MemoryStore.Delete s id).2 id = none ∧
    (∀ r ∈ MemoryStore.GetAll (MemoryStore.Delete s id).2, gid r ≠ id) ∧
    ∀ j, j ≠ id → MemoryStore.GetByID (MemoryStore.Delete s id).2 j =
        MemoryStore.GetByID s j := by
  refine ⟨?_, ?_, ?_, ?_⟩
  · simp [MemoryStore.Delete, hfound]
  · simp [MemoryStore.Delete, MemoryStore.GetByID, hfound,
      GoMap.lookup_erase_self]
  · intro r hr
    simp only [MemoryStore.Delete, hfound, MemoryStore.GetAll] at hr
    obtain ⟨p, hp, hpr⟩ := List.mem_map.mp hr
    have h1 := hagree p (GoMap.mem_erase hp)
    have h2 := GoMap.mem_erase_key_ne hp
    rw [← hpr, h1]
    exact h2
  · intro j hj
    simp only [MemoryStore.Delete, hfound, MemoryStore.GetByID]
    exact GoMap.lookup_erase_ne s.items id j hj

/-- C6 witness: deleting the one stored item of a concrete store. -/
theorem delete_removes_exactly_that_id_witness :
    (MemoryStore.Delete sampleItemStore "a").1 = true ∧
    MemoryStore.GetByID (MemoryStore.Delete sampleItemStore "a").2 "a" = none ∧
    (∀ r ∈ MemoryStore.GetAll (MemoryStore.Delete sampleItemStore "a").2,
        Item.ID r ≠ "a") ∧
    ∀ j, j ≠ "a" → MemoryStore.GetByID (MemoryStore.Delete sampleItemStore "a").2 j =
        MemoryStore.GetByID sampleItemStore j :=
  delete_removes_exactly_that_id Item.ID sampleItemStore "a" sampleItem
    (fun p hp => by
      have hp' : p ∈ [("a", sampleItem)] := hp
      rw [List.mem_singleton] at hp'
      subst hp'
      rfl)
    (by decide)

/-- C8: in every store state reachable by a trace of mutating calls from
a fresh store of a shape whose switch arm obeys the identifier law (both
instantiated shapes do), no identifier is bound twice, every stored
record's identifier field equals its binding key and is non-empty, and
across each step of the trace a record surviving under a key keeps its
identifier: Create assigns it once, Update keeps it. -/
theorem reachable_state_identifier_invariants {T : Type u} (o : ModelOps T)
    (hID : ∀ x i c util, o.getID (o.withIdentity x i c util) = i)
    (trace : List (Op T)) (hwf : ∀ op ∈ trace, opWF op) :
    StoreInv o.getID (runTrace o (NewMemoryStore T) trace) ∧
    ∀ (n : Nat) (k : String) (v w : T),
      GoMap.lookup (runTrace o (NewMemoryStore T) (trace.take n)).items k = some v →
      GoMap.lookup (runTrace o (NewMemoryStore T) (trace.take (n + 1))).items k = some w →
      o.getID v = o.getID w := by
  have hpre : ∀ tr : List (Op T), (∀ op ∈ tr, opWF op) →
      StoreInv o.getID (runTrace o (NewMemoryStore T) tr) := fun tr htr =>
    runTrace_StoreInv o hID tr (NewMemoryStore T) (StoreInv_empty o.getID) htr
  refine ⟨hpre trace hwf, ?_⟩
  intro n k v w hv hw
  have h1 := hpre (trace.take n) (fun op hop => hwf op (List.mem_of_mem_take hop))
  have h2 := hpre (trace.take (n + 1))
    (fun op hop => hwf op (List.mem_of_mem_take hop))
  have e1 := (h1.2 _ (GoMap.lookup_mem hv)).1
  have e2 := (h2.2 _ (GoMap.lookup_mem hw)).1
  rw [e1, e2]

/-- C8 witness: a concrete create-update-delete trace on the item
store. -/
theorem reachable_state_identifier_invariants_witness :
    StoreInv itemOps.getID (runTrace itemOps (NewMemoryStore Item) sampleTrace) ∧
    ∀ (n : Nat) (k : String) (v w : Item),
      GoMap.lookup (runTrace itemOps (NewMemoryStore Item) (sampleTrace.take n)).items k =
          some v →
      GoMap.lookup (runTrace itemOps (NewMemoryStore Item)
          (sampleTrace.take (n + 1))).items k = some w →
      itemOps.getID v = itemOps.getID w :=
  reachable_state_identifier_invariants itemOps (fun _ _ _ _ => rfl) sampleTrace
    (by decide)

/-- C10: for the stores the program instantiates (models.Item and
models.Client), every binding of the internal map carries a record whose
ID field equals the binding's key: this agreement holds of the fresh
store and is preserved by Create, Update and Delete. -/
theorem key_field_agreement_all_ops :
    (keyFieldAgree Item.ID (NewMemoryStore Item) ∧
      (∀ (s : MemoryStore Item) (d : Item) (i : String) (t1 t2 : Nat),
          keyFieldAgree Item.ID s →
          keyFieldAgree Item.ID (MemoryStore.Create (some itemOps) s d i t1 t2).2) ∧
      (∀ (s : MemoryStore Item) (id : String) (d : Item) (t : Nat),
          keyFieldAgree Item.ID s →
          keyFieldAgree Item.ID (MemoryStore.Update (some itemOps) s id d t).2) ∧
      ∀ (s : MemoryStore Item) (id : String),
          keyFieldAgree Item.ID s →
          keyFieldAgree Item.ID (MemoryStore.Delete s id).2) ∧
    (keyFieldAgree Client.ID (NewMemoryStore Client) ∧
      (∀ (s : MemoryStore Client) (d : Client) (i : String) (t1 t2 : Nat),
          keyFieldAgree Client.ID s →
          keyFieldAgree Client.ID (MemoryStore.Create (some clientOps) s d i t1 t2).2) ∧
      (∀ (s : MemoryStore Client) (id : String) (d : Client) (t : Nat),
          keyFieldAgree Client.ID s →
          keyFieldAgree Client.ID (MemoryStore.Update (some clientOps) s id d t).2) ∧
      ∀ (s : MemoryStore Client) (id : String),
          keyFieldAgree Client.ID s →
          keyFieldAgree Client.ID (MemoryStore.Delete s id).2) :=
  ⟨⟨fun p hp => absurd hp (List.not_mem_nil p),
    fun s d i t1 t2 h => create_keyFieldAgree itemOps s d i t1 t2 h,
    fun s id d t h => update_keyFieldAgree itemOps (fun _ _ _ _ => rfl) s id d t h,
    fun s id h => delete_keyFieldAgree Item.ID s id h⟩,
   ⟨fun p hp => absurd hp (List.not_mem_nil p),
    fun s d i t1 t2 h => create_keyFieldAgree clientOps s d i t1 t2 h,
    fun s id d t h => update_keyFieldAgree clientOps (fun _ _ _ _ => rfl) s id d t h,
    fun s id h => delete_keyFieldAgree Client.ID s id h⟩⟩

/-- C10 witness: agreement survives a concrete Create on a concrete
agreeing store. -/
theorem key_field_agreement_all_ops_witness :
    keyFieldAgree Item.ID
      (MemoryStore.Create (some itemOps) sampleItemStore rawItem "u9" 5 6).2 :=
  key_field_agreement_all_ops.1.2.1 sampleItemStore rawItem "u9" 5 6
    (fun p hp => by
      have hp' : p ∈ [("a", sampleItem)] := hp
      rw [List.mem_singleton] at hp'
      subst hp'
      rfl)

end GoApi
